import Mathlib

/-!
Verification of the smooth-freecad format converter.

This development shallowly embeds the converter modules of the repository
(`fctb_parser.py`, `fctl_parser.py`, `shape_storage.py` and the duplicate
check of `SmoothDialog.py`) and proves or refutes the specified properties.

Modelling conventions:
* Python numbers appearing in tool documents are decimal literals; they are
  embedded as exact decimals `Dec` (an integer mantissa with a power-of-ten
  denominator), kept in canonical form by the constructors used here, so that
  structural equality coincides with numeric equality.  Python `%.2f`
  formatting is embedded as exact decimal rounding, half to even, which
  agrees with CPython on decimals that are exactly representable.
* Python `dict`s are embedded as association lists with distinct keys,
  built with an insert operation `dinsert` that mirrors `d[k] = v`
  (update in place, preserving position, appending fresh keys).
  Membership tests and lookups mirror `k in d` and `d[k]`.
* Strings are processed on their character lists; whitespace and case
  functions cover the ASCII range used by the tool documents.
* `re.match(r'^([-+]?[0-9]*\.?[0-9]+)\s*(.+)$', s)` is embedded by the
  backtracking matcher `numSplit`: the numeric group is tried longest
  first, `\s*` is greedy, and `(.+)$` requires a nonempty remainder free
  of newlines.  The parser only matches stripped strings, for which this
  is exactly the Python semantics.
* Fallible Python functions (raising exceptions) are embedded with
  `Except String`, carrying the exact message text (`\x27` is an
  apostrophe).
-/

deriving instance DecidableEq for Except

namespace Smooth

/-! ### Character and string helpers -/

/-- Python `str.isspace` characters (ASCII range), as used by `str.strip`
and the regex class `\s`. -/
def pyIsSpace (c : Char) : Bool :=
  c = ' ' ∨ c = '\t' ∨ c = '\n' ∨ c = '\r' ∨ c = '\x0b' ∨ c = '\x0c'

/-- Python `str.strip()` on a character list. -/
def pyStrip (cs : List Char) : List Char :=
  ((cs.dropWhile pyIsSpace).reverse.dropWhile pyIsSpace).reverse

/-- Substring containment, Python `needle in hay`. -/
def subContains (needle : List Char) : List Char → Bool
  | [] => needle.isPrefixOf []
  | c :: cs => needle.isPrefixOf (c :: cs) || subContains needle cs

/-- `suffix.data.isSuffixOf` wrapper: Python `str.endswith`. -/
def strEndsWith (s suffix : String) : Bool :=
  suffix.data.isSuffixOf s.data

/-- Python `", ".join(l)`. -/
def joinComma : List String → String
  | [] => ""
  | [x] => x
  | x :: y :: rest => x ++ ", " ++ joinComma (y :: rest)

/-! ### Exact decimal numbers

Numeric parameter values in the tool documents are decimal literals
(`5.0`, `6.02`, …).  They are embedded exactly: `Dec m e` denotes
`m / 10 ^ e`. -/

structure Dec where
  mant : Int
  exp : Nat
  deriving DecidableEq, Repr

/-- Canonicalize a mantissa/exponent pair by removing trailing factors of
ten, so that equal decimal values have equal representations. -/
def decCanon (m : Int) : Nat → Dec
  | 0 => ⟨m, 0⟩
  | e + 1 => if m % 10 = 0 then decCanon (m / 10) e else ⟨m, e + 1⟩

/-- Value of a digit character. -/
def digitVal (c : Char) : Nat := c.toNat - '0'.toNat

/-- Value of a digit string. -/
def digitsToNat (ds : List Char) : Nat :=
  ds.foldl (fun acc c => acc * 10 + digitVal c) 0

/-- Python `float(s)` on the numeric strings matched by the parser's
regex (optional sign, integer digits, optional fraction digits). -/
def pyFloat (cs : List Char) : Dec :=
  let signNeg := cs.head? = some '-'
  let body := if cs.head? = some '-' ∨ cs.head? = some '+' then cs.tail else cs
  let intDs := body.takeWhile Char.isDigit
  let rest := body.dropWhile Char.isDigit
  let fracDs := rest.tail.takeWhile Char.isDigit
  let n : Int := (digitsToNat (intDs ++ fracDs) : Int)
  decCanon (if signNeg then -n else n) fracDs.length

/-- Round `a / d` (with `d > 0`) to the nearest integer, ties to even:
the rounding C's `%.2f` applies to exactly representable decimals. -/
def roundHalfEvenDiv (a d : Nat) : Nat :=
  let q := a / d
  let r := a % d
  if 2 * r < d then q
  else if 2 * r > d then q + 1
  else if q % 2 = 0 then q else q + 1

/-- Two-digit zero-padded rendering of `n < 100`. -/
def pad2 (n : Nat) : String :=
  if n < 10 then "0" ++ toString n else toString n

/-- The numerator of `|d| * 100` rounded to an integer, half to even. -/
def decAbsTimes100 (d : Dec) : Nat :=
  if d.exp ≤ 2 then d.mant.natAbs * 10 ^ (2 - d.exp)
  else roundHalfEvenDiv d.mant.natAbs (10 ^ (d.exp - 2))

/-- Python `f"{v:.2f}"`: exactly two digits after the decimal point,
sign taken from the value (so `-0.001` renders as `-0.00`). -/
def formatFixed2 (d : Dec) : String :=
  let n := decAbsTimes100 d
  (if d.mant < 0 then "-" else "") ++ toString (n / 100) ++ "." ++ pad2 (n % 100)

/-- Python `str(v)` for a float `v = m / 10 ^ e`: at least one digit on
each side of the point (`str(6.0) = "6.0"`, `str(0.5) = "0.5"`). -/
def decStr (d : Dec) : String :=
  let ds := (toString d.mant.natAbs).data
  let ipLen := ds.length - d.exp
  let intDs := if d.exp < ds.length then ds.take ipLen else ['0']
  let fracDs := if d.exp = 0 then ['0']
    else List.replicate (d.exp - ds.length) '0' ++ ds.drop ipLen
  (if d.mant < 0 then "-" else "") ++ String.mk intDs ++ "." ++ String.mk fracDs

/-! ### Parameter and geometry values -/

/-- A FreeCAD parameter value: a plain number, a plain string, or the
parsed `{"value": …, "unit": …}` pair produced by `parse_parameter_value`. -/
inductive PVal where
  | pnum (d : Dec)
  | pstr (s : String)
  | punit (d : Dec) (u : String)
  deriving DecidableEq, Repr

/-- A geometry (exchange-side) scalar: a number or a string. -/
inductive GVal where
  | gnum (d : Dec)
  | gstr (s : String)
  deriving DecidableEq, Repr

/-- Python `str(v)` for a geometry scalar. -/
def pyStrG : GVal → String
  | .gnum d => decStr d
  | .gstr s => s

/-- Python truthiness of a parameter value (`0.0`, `""` are falsy; a
nonempty dict such as a value/unit pair is truthy). -/
def pyTruthyP : PVal → Bool
  | .pnum d => d.mant ≠ 0
  | .pstr s => s ≠ ""
  | .punit _ _ => true

/-- Python truthiness of `d.get(k)` for an optional string field
(`None` and `""` are falsy). -/
def pyTruthyOptStr (o : Option String) : Bool :=
  match o with
  | none => false
  | some s => s ≠ ""

/-! ### UnitValueCodec: `parse_parameter_value` (fctb_parser.py:27) -/

/-- The fixed unit-indicator set of `parse_parameter_value`:
`['m', '°', 'in', 'deg']`, checked by substring containment. -/
def hasUnitIndicator (cs : List Char) : Bool :=
  ["m".data, "°".data, "in".data, "deg".data].any (fun n => subContains n cs)

/-- Does `cs` match the regex group `[-+]?[0-9]*\.?[0-9]+` exactly? -/
def isNumToken (cs : List Char) : Bool :=
  let body := if cs.head? = some '-' ∨ cs.head? = some '+' then cs.tail else cs
  let ds := body.takeWhile Char.isDigit
  match body.dropWhile Char.isDigit with
  | [] => !ds.isEmpty
  | '.' :: r => !r.isEmpty && r.all Char.isDigit
  | _ => false

/-- Can `\s*(.+)$` consume `r` (for a string with no trailing
whitespace)?  Greedily: drop the whitespace, require a nonempty
newline-free remainder. -/
def restMatch (r : List Char) : Bool :=
  let core := r.dropWhile pyIsSpace
  !core.isEmpty && !core.contains '\n'

/-- `re.match(r'^([-+]?[0-9]*\.?[0-9]+)\s*(.+)$', s)` for a stripped `s`:
group 1 is matched greedily (longest numeric token first, backtracking),
and the returned second component is group 2. -/
def numSplit (cs : List Char) : Option (List Char × List Char) :=
  ((List.range (cs.length + 1)).reverse.filterMap (fun n =>
    if isNumToken (cs.take n) && restMatch (cs.drop n) then
      some (cs.take n, (cs.drop n).dropWhile pyIsSpace)
    else none)).head?

/-- `parse_parameter_value` (fctb_parser.py:27): parse a parameter value
that may include units.  Non-strings are returned as-is; a leading
number whose remainder contains a unit indicator becomes a value/unit
pair; anything else is returned unchanged. -/
def parse_parameter_value (value : PVal) : PVal :=
  match value with
  | .pnum d => .pnum d
  | .punit d u => .punit d u
  | .pstr s =>
    match numSplit (pyStrip s.data) with
    | some (numericPart, unitPart) =>
      if hasUnitIndicator unitPart then
        .punit (pyFloat numericPart) (String.mk (pyStrip unitPart))
      else .pstr s
    | none => .pstr s

/-! ### UnitValueCodec: `format_parameter_value` (fctb_parser.py:270) -/

/-- `format_parameter_value` (fctb_parser.py:270): format a parameter
value with unit for FreeCAD.  `unit` is the value looked up under the
`<key>_unit` geometry key (a geometry scalar, normally a string). -/
def format_parameter_value (value : GVal) (unit : Option GVal) : String :=
  match unit with
  | none => pyStrG value
  | some u =>
    match value with
    | .gnum d =>
      if u = .gstr "°" then formatFixed2 d ++ "°"
      else formatFixed2 d ++ " " ++ pyStrG u
    | .gstr s => s

/-! ### Python dicts as association lists -/

/-- The keys of a dict. -/
def dkeys {α : Type} (l : List (String × α)) : List String := l.map Prod.fst

/-- Python `k in d`. -/
def dmem {α : Type} (k : String) (l : List (String × α)) : Bool :=
  l.any (fun p => p.1 = k)

/-- Python `d.get(k)` / `d[k]`. -/
def dlookup {α : Type} (k : String) (l : List (String × α)) : Option α :=
  (l.find? (fun p => p.1 = k)).map Prod.snd

/-- Python `d[k] = v`: update in place if the key exists (keeping its
position), otherwise append. -/
def dinsert {α : Type} (k : String) (v : α) (l : List (String × α)) : List (String × α) :=
  if dmem k l then l.map (fun p => if p.1 = k then (k, v) else p) else l ++ [(k, v)]

/-! ### NativeDocumentParser: `parse_fctb_dict` (fctb_parser.py:66) -/

/-- A raw `.fctb` JSON document (wire contract of section 6 of the spec):
`Option` marks presence of the top-level key. -/
structure FctbDoc where
  version : Option Int := none
  id : Option String := none
  name : Option String := none
  shape : Option String := none
  shapeType : Option String := none
  parameter : Option (List (String × PVal)) := none
  attrs : Option (List (String × PVal)) := none
  deriving DecidableEq, Repr

/-- The required top-level fields of `parse_fctb_dict`, in source order. -/
def fctbRequired : List String := ["version", "name", "shape", "shape-type", "parameter"]

/-- Python `field in data` for an `.fctb` document. -/
def fctbHas (d : FctbDoc) : String → Bool
  | "version" => d.version.isSome
  | "name" => d.name.isSome
  | "shape" => d.shape.isSome
  | "shape-type" => d.shapeType.isSome
  | "parameter" => d.parameter.isSome
  | _ => false

/-- `[field for field in required_fields if field not in data]`. -/
def fctbMissing (d : FctbDoc) : List String :=
  fctbRequired.filter (fun f => !fctbHas d f)

/-- A parsed tool bit, the normalized structure built by `parse_fctb_dict`. -/
structure Tool where
  version : Int
  id : Option String
  name : String
  shape : String
  shape_type : String
  parameters : List (String × PVal)
  attrs : List (String × PVal)
  original : FctbDoc
  deriving DecidableEq, Repr

/-- `parse_fctb_dict` (fctb_parser.py:66): validate required fields
(collecting every missing one into a single error), parse all parameter
values, default `attribute` to an empty mapping, and retain the whole
input document under `_original`. -/
def parse_fctb_dict (d : FctbDoc) : Except String Tool :=
  match d.version, d.name, d.shape, d.shapeType, d.parameter with
  | some v, some n, some sh, some st, some ps =>
    .ok { version := v, id := d.id, name := n, shape := sh, shape_type := st,
          parameters := ps.map (fun kv => (kv.1, parse_parameter_value kv.2)),
          attrs := d.attrs.getD [], original := d }
  | _, _, _, _, _ =>
    .error ("Missing required fields: " ++ joinComma (fctbMissing d))

/-! ### FormatConverter: `fctb_to_smooth` (fctb_parser.py:158) -/

/-- `map_shape_type` (fctb_parser.py:127): many-to-one forward lookup,
defaulting to `"cutting_tool"`. -/
def map_shape_type (freecad_shape_type : String) : String :=
  match freecad_shape_type with
  | "Drill" | "Endmill" | "Ballend" | "VBit" | "ThreadMill" | "ChamferMill"
  | "CornerRound" | "Reamer" | "SpottingDrill" | "SurfacingBit" => "cutting_tool"
  | "Probe" => "probe"
  | _ => "cutting_tool"

/-- Insert `'_'` before every ASCII capital: the effect of
`re.sub(r'(?<!^)(?=[A-Z])', '_', …)` on the tail of the key. -/
def snakeAux : List Char → List Char
  | [] => []
  | c :: cs => (if c.isUpper then ['_', c] else [c]) ++ snakeAux cs

/-- The key transliteration of `fctb_to_smooth` (fctb_parser.py:182):
lower-case the first character, insert `'_'` before each remaining
capital letter, then lower-case the whole key. -/
def toSnakeCase (key : String) : String :=
  match key.data with
  | [] => ""
  | c :: cs => String.mk ((c.toLower :: snakeAux cs).map Char.toLower)

/-- Exchange-side `freecad_metadata` (presence of each key is tracked;
the `id` key may be present with value `None`). -/
structure FreecadMeta where
  shape : Option String := none
  shape_type : Option String := none
  id : Option (Option String) := none
  version : Option Int := none
  deriving DecidableEq, Repr

/-- Exchange-side `shape_data` attachment (the sub-fields the converter
reads or writes; `Option` marks presence). -/
structure ShapeData where
  format : Option String := none
  source_system : Option String := none
  reference_type : Option String := none
  reference_value : Option String := none
  metadata_shape_type : Option String := none
  metadata_original_reference : Option String := none
  deriving DecidableEq, Repr

/-- An exchange ToolItem (wire contract of section 6 of the spec). -/
structure SmoothTool where
  type : Option String := none
  description : Option String := none
  geometry : List (String × GVal) := []
  material_type : Option PVal := none
  shape_data : Option ShapeData := none
  freecad_metadata : Option FreecadMeta := none
  id : Option String := none
  deriving DecidableEq, Repr

/-- One iteration of the geometry-building loop of `fctb_to_smooth`
(fctb_parser.py:177): skip `"Material"`, transliterate the key, store a
value/unit pair as two keys and a plain value as one. -/
def geomStep (acc : List (String × GVal)) (kv : String × PVal) : List (String × GVal) :=
  if kv.1 = "Material" then acc
  else
    let pk := toSnakeCase kv.1
    match kv.2 with
    | .punit d u => dinsert (pk ++ "_unit") (.gstr u) (dinsert pk (.gnum d) acc)
    | .pnum d => dinsert pk (.gnum d) acc
    | .pstr s => dinsert pk (.gstr s) acc

/-- The geometry dict built by `fctb_to_smooth`. -/
def buildGeometry (params : List (String × PVal)) : List (String × GVal) :=
  params.foldl geomStep []

/-- `fctb_to_smooth` (fctb_parser.py:158): convert a parsed tool bit to
the Smooth ToolItem format. -/
def fctb_to_smooth (tool : Tool) : SmoothTool :=
  { type := some (map_shape_type tool.shape_type)
    description := some tool.name
    geometry := buildGeometry tool.parameters
    material_type := dlookup "Material" tool.parameters
    shape_data :=
      if tool.shape ≠ "" then
        some { format := some "fcstd", source_system := some "freecad",
               reference_type := some "local_path", reference_value := some tool.shape,
               metadata_shape_type := some tool.shape_type,
               metadata_original_reference := some tool.shape }
      else none
    freecad_metadata :=
      some { shape := some tool.shape, shape_type := some tool.shape_type,
             id := some tool.id, version := some tool.version }
    id := none }

/-! ### FormatConverter: `smooth_to_fctb` (fctb_parser.py:298) -/

/-- `reverse_map_shape_type` (fctb_parser.py:231): `"probe" → "Probe"`,
everything else `"Endmill"`. -/
def reverse_map_shape_type (smooth_type : String) : String :=
  match smooth_type with
  | "probe" => "Probe"
  | _ => "Endmill"

/-- Python `str.split('_')` (keeps empty components). -/
def splitUnderscore : List Char → List (List Char)
  | [] => [[]]
  | c :: cs =>
    if c = '_' then [] :: splitUnderscore cs
    else
      match splitUnderscore cs with
      | [] => [[c]]
      | g :: gs => (c :: g) :: gs

/-- Python `str.title()` (ASCII): upper-case a letter that does not
follow a letter, lower-case one that does. -/
def pyTitleGo : Bool → List Char → List Char
  | _, [] => []
  | prevAlpha, c :: cs =>
    (if c.isAlpha then (if prevAlpha then c.toLower else c.toUpper) else c)
      :: pyTitleGo c.isAlpha cs

/-- `snake_to_camel` (fctb_parser.py:253):
`''.join(x.title() for x in snake_str.split('_'))`. -/
def snake_to_camel (snake_str : String) : String :=
  String.mk (((splitUnderscore snake_str.data).map (pyTitleGo false)).flatten)

/-- The dimensional key set of `smooth_to_fctb` (fctb_parser.py:348). -/
def dimensionalKeys : List String :=
  ["diameter", "length", "height", "angle", "tip_angle",
   "cutting_edge_height", "shank_diameter"]

/-- The `ValueError` message of `smooth_to_fctb` for a dimensional
parameter without its unit field. -/
def dimErrorMsg (key : String) : String :=
  "Dimensional parameter \x27" ++ key ++ "\x27 missing required unit field \x27"
    ++ key ++ "_unit\x27"

/-- Does a geometry key end in `"_unit"`? -/
def endsWithUnit (k : String) : Bool := strEndsWith k "_unit"

/-- The geometry-processing loop of `smooth_to_fctb` (fctb_parser.py:327):
`g` is the full geometry dict (for unit-key lookups), the first list
argument the remaining items, then the `parameters` dict and the
`processed_keys` set being accumulated. -/
def smoothParamsGo (g : List (String × GVal)) :
    List (String × GVal) → List (String × PVal) → List String →
    Except String (List (String × PVal))
  | [], params, _ => .ok params
  | (key, value) :: rest, params, processed =>
    if endsWithUnit key then smoothParamsGo g rest params processed
    else if processed.contains key then smoothParamsGo g rest params processed
    else
      match dlookup (key ++ "_unit") g with
      | some u =>
        smoothParamsGo g rest
          (dinsert (snake_to_camel key)
            (.pstr (format_parameter_value value (some u))) params)
          (key :: (key ++ "_unit") :: processed)
      | none =>
        match value with
        | .gnum d =>
          if dimensionalKeys.contains key then .error (dimErrorMsg key)
          else smoothParamsGo g rest
            (dinsert (snake_to_camel key) (.pnum d) params) (key :: processed)
        | .gstr s =>
          smoothParamsGo g rest
            (dinsert (snake_to_camel key) (.pstr s) params) (key :: processed)

/-- The `parameters` dict built from a geometry dict by `smooth_to_fctb`. -/
def smoothParams (g : List (String × GVal)) : Except String (List (String × PVal)) :=
  smoothParamsGo g g [] []

/-- A `.fctb` document produced by `smooth_to_fctb` (`id`: outer `Option`
is key presence, inner is the stored value, which may be `None`). -/
structure FctbOut where
  version : Int
  name : String
  shape : String
  shape_type : String
  parameter : List (String × PVal)
  attrs : List (String × PVal)
  id : Option (Option String)
  deriving DecidableEq, Repr

/-- The shape-file block of `smooth_to_fctb` (fctb_parser.py:368-379):
`metadata.get("shape")`, else `shape_data.reference.value`, else
`shape_data.metadata.original_reference` (all under Python truthiness),
else the synthesized `f"{default_shape}.fcstd"`. -/
def resolveShapeFile (metadata : Option FreecadMeta) (shape_data : Option ShapeData)
    (default_shape : String) : String :=
  let shapeFile0 : Option String := metadata.bind FreecadMeta.shape
  let shapeFile1 : Option String :=
    if pyTruthyOptStr shapeFile0 then shapeFile0
    else
      match shape_data with
      | some sd =>
        if pyTruthyOptStr sd.reference_value then sd.reference_value
        else if pyTruthyOptStr sd.metadata_original_reference then
          sd.metadata_original_reference
        else shapeFile0
      | none => shapeFile0
  if pyTruthyOptStr shapeFile1 then shapeFile1.getD ""
  else default_shape ++ ".fcstd"

/-- `smooth_to_fctb` (fctb_parser.py:298): convert a Smooth ToolItem to
the FreeCAD `.fctb` format; fails with a `ValueError` when a dimensional
numeric geometry value has no unit field. -/
def smooth_to_fctb (smooth_tool : SmoothTool) (default_shape : String := "endmill") :
    Except String FctbOut :=
  let metadata := smooth_tool.freecad_metadata
  match smoothParams smooth_tool.geometry with
  | .error e => .error e
  | .ok params0 =>
    let parameters :=
      match smooth_tool.material_type with
      | some mv => if pyTruthyP mv then dinsert "Material" mv params0 else params0
      | none => params0
    let shapeType :=
      match metadata with
      | some m =>
        match m.shape_type with
        | some st => st
        | none => reverse_map_shape_type (smooth_tool.type.getD "cutting_tool")
      | none => reverse_map_shape_type (smooth_tool.type.getD "cutting_tool")
    let shape := resolveShapeFile metadata smooth_tool.shape_data default_shape
    let outId : Option (Option String) :=
      match metadata with
      | some m =>
        match m.id with
        | some v => some v
        | none => smooth_tool.id.map some
      | none => smooth_tool.id.map some
    .ok { version := (metadata.bind FreecadMeta.version).getD 2
          name := smooth_tool.description.getD "Unnamed Tool"
          shape := shape
          shape_type := shapeType
          parameter := parameters
          attrs := []
          id := outId }

/-! ### NativeDocumentParser: `parse_fctl_dict` (fctl_parser.py:33) -/

/-- A library tool entry `{nr, path}` (wire contract of section 6). -/
structure FctlToolEntry where
  nr : Int
  path : String
  deriving DecidableEq, Repr

/-- The `tools` field of a raw `.fctl` document: a list, or a value of
some other (non-sequence) type. -/
inductive ToolsField where
  | tlist (tools : List FctlToolEntry)
  | nonList
  deriving DecidableEq, Repr

/-- A raw `.fctl` JSON document. -/
structure FctlDoc where
  version : Option Int := none
  label : Option String := none
  name : Option String := none
  tools : Option ToolsField := none
  deriving DecidableEq, Repr

/-- Python `field in data` for an `.fctl` document. -/
def fctlHas (d : FctlDoc) : String → Bool
  | "version" => d.version.isSome
  | "tools" => d.tools.isSome
  | _ => false

/-- The missing required fields of an `.fctl` document, in source order. -/
def fctlMissing (d : FctlDoc) : List String :=
  ["version", "tools"].filter (fun f => !fctlHas d f)

/-- A parsed tool library. -/
structure Library where
  version : Int
  label : Option String
  tools : List FctlToolEntry
  original : FctlDoc
  deriving DecidableEq, Repr

/-- `parse_fctl_dict` (fctl_parser.py:33): require `version` and `tools`
(collecting all missing fields), require `tools` to be a list, and take
`label` from `data.get("label") or data.get("name")`. -/
def parse_fctl_dict (d : FctlDoc) : Except String Library :=
  match d.version, d.tools with
  | some v, some tf =>
    match tf with
    | .tlist ts =>
      .ok { version := v,
            label := if pyTruthyOptStr d.label then d.label else d.name,
            tools := ts, original := d }
    | .nonList => .error "\x27tools\x27 field must be a list"
  | _, _ =>
    .error ("Missing required fields: " ++ joinComma (fctlMissing d))

/-! ### DuplicateDetector: `check_duplicates` (SmoothDialog.py:490)

The two index dicts are used only through key membership, so they are
embedded as their key lists: `existing_by_id` is keyed by the
`freecad_metadata.id` of existing items, `existing_by_sig` by their
`f"{description}|{diameter}"` signature. -/

/-- `check_duplicates` (SmoothDialog.py:490): test the candidate's
top-level `id` against the native-id index, then its
`description|diameter` signature against the structural index. -/
def check_duplicates (tool : SmoothTool)
    (existing_by_id existing_by_sig : List String) : Bool × String :=
  let idDup :=
    match tool.id with
    | some fid => fid ≠ "" && existing_by_id.contains fid
    | none => false
  if idDup then (true, "FreeCAD ID")
  else
    let sigDup :=
      match dlookup "diameter" tool.geometry with
      | some diam =>
        tool.description.getD "" ≠ ""
          && existing_by_sig.contains (tool.description.getD "" ++ "|" ++ pyStrG diam)
      | none => false
    if sigDup then (true, "description+diameter") else (false, "")

/-! ### ShapeStore: `verify_shape_file_integrity` (shape_storage.py:207) -/

/-- Drop everything up to and including the first `':'`:
`s.split(':', 1)[1]`. -/
def afterFirstColon : List Char → List Char
  | [] => []
  | c :: cs => if c = ':' then cs else afterFirstColon cs

/-- `verify_shape_file_integrity` (shape_storage.py:207).  The filesystem
is embedded as a partial map from paths to contents and the chunked
SHA-256 digest of `calculate_file_hash` as a content-indexed digest
function `hashFn`; the claim under verification concerns only the
control flow around them. -/
def verify_shape_file_integrity {α : Type} (hashFn : α → String)
    (fs : String → Option α) (file_path expected_hash : String) : Bool :=
  match fs file_path with
  | none => false
  | some content =>
    let hash_value :=
      if expected_hash.data.contains ':' then String.mk (afterFirstColon expected_hash.data)
      else expected_hash
    hashFn content == hash_value

/-! ### Definitions following the spec's words (for refinement claims) -/

/-- Spec-worded transliteration for C3: "inserting an underscore before
each capital letter run and lower-casing the whole key" (no underscore
at the start of the key). -/
def specSnakeGo : Bool → List Char → List Char
  | _, [] => []
  | prevUp, c :: cs =>
    (if c.isUpper && !prevUp then ['_', c.toLower] else [c.toLower])
      ++ specSnakeGo c.isUpper cs

/-- Spec-worded transliteration for C3 (see `specSnakeGo`). -/
def specSnakeCase (key : String) : String :=
  match key.data with
  | [] => ""
  | c :: cs => String.mk (c.toLower :: specSnakeGo c.isUpper cs)

/-- Spec-worded shape-file resolution for C7: the first non-empty
candidate among `nativeMetadata.shape`, `shapeAttachment.reference.value`,
`shapeAttachment.metadata.original_reference`, else the synthesized
default `"<defaultShapeFile>.fcstd"`. -/
def resolveShapeSpec (t : SmoothTool) (d : String) : String :=
  match (([t.freecad_metadata.bind FreecadMeta.shape,
           t.shape_data.bind ShapeData.reference_value,
           t.shape_data.bind ShapeData.metadata_original_reference].filterMap id).filter
            (fun s => s ≠ "")).head? with
  | some s => s
  | none => d ++ ".fcstd"

/-! ### Dict lemmas -/

theorem dkeys_append {α : Type} (a b : List (String × α)) :
    dkeys (a ++ b) = dkeys a ++ dkeys b := List.map_append _ _ _

theorem dmem_iff {α : Type} (k : String) (l : List (String × α)) :
    dmem k l = true ↔ k ∈ dkeys l := by
  simp only [dmem, List.any_eq_true, dkeys, List.mem_map, decide_eq_true_eq]

theorem dinsert_of_not_mem {α : Type} {k : String} {l : List (String × α)} (v : α)
    (h : k ∉ dkeys l) : dinsert k v l = l ++ [(k, v)] := by
  have : dmem k l ≠ true := fun hc => h ((dmem_iff k l).1 hc)
  simp [dinsert, this]

theorem dlookup_cons {α : Type} (k a : String) (b : α) (l : List (String × α)) :
    dlookup k ((a, b) :: l) = if a = k then some b else dlookup k l := by
  by_cases h : a = k <;> simp [dlookup, List.find?, h]

theorem dlookup_eq_of_mem_nodup {α : Type} {k : String} {v : α} {l : List (String × α)}
    (hnd : (dkeys l).Nodup) (hm : (k, v) ∈ l) : dlookup k l = some v := by
  induction l with
  | nil => cases hm
  | cons p rest ih =>
    obtain ⟨a, b⟩ := p
    rw [dlookup_cons]
    rcases List.mem_cons.1 hm with h | h
    · obtain ⟨h1, h2⟩ := Prod.ext_iff.1 h
      dsimp at h1 h2
      subst h1; subst h2
      simp
    · have hk : k ∈ dkeys rest := List.mem_map.2 ⟨(k, v), h, rfl⟩
      have hnd' : (dkeys rest).Nodup := (List.nodup_cons.1 hnd).2
      have ha : a ∉ dkeys rest := (List.nodup_cons.1 hnd).1
      have : a ≠ k := fun he => ha (he ▸ hk)
      rw [if_neg this]
      exact ih hnd' h

theorem dlookup_isSome_of_mem {α : Type} {k : String} {v : α} {l : List (String × α)}
    (hm : (k, v) ∈ l) : (dlookup k l).isSome := by
  induction l with
  | nil => cases hm
  | cons p rest ih =>
    obtain ⟨a, b⟩ := p
    rw [dlookup_cons]
    rcases List.mem_cons.1 hm with h | h
    · have : a = k := congrArg Prod.fst h |>.symm
      simp [this]
    · by_cases he : a = k
      · simp [he]
      · rw [if_neg he]; exact ih h

theorem dlookup_none_iff {α : Type} (k : String) (l : List (String × α)) :
    dlookup k l = none ↔ k ∉ dkeys l := by
  induction l with
  | nil => simp [dlookup, dkeys]
  | cons p rest ih =>
    obtain ⟨a, b⟩ := p
    rw [dlookup_cons]
    by_cases h : a = k
    · subst h; simp [dkeys]
    · rw [if_neg h]
      simp only [dkeys, List.map_cons, List.mem_cons, not_or]
      constructor
      · intro hn
        exact ⟨fun he => h he.symm, fun hc => (ih.1 hn) hc⟩
      · intro hn
        exact ih.2 hn.2

theorem dlookup_map_update_ne {α : Type} {k k' : String} (hne : k ≠ k') (v : α)
    (l : List (String × α)) :
    dlookup k (l.map (fun p => if p.1 = k' then (k', v) else p)) = dlookup k l := by
  induction l with
  | nil => simp [dlookup]
  | cons p rest ih =>
    obtain ⟨a, b⟩ := p
    by_cases ha : a = k'
    · subst ha
      simp only [List.map_cons, if_true]
      rw [dlookup_cons, dlookup_cons, if_neg (fun h => hne h.symm),
        if_neg (fun h => hne h.symm)]
      exact ih
    · simp only [List.map_cons]
      rw [if_neg ha, dlookup_cons, dlookup_cons]
      by_cases hak : a = k
      · simp [hak]
      · rw [if_neg hak, if_neg hak]; exact ih

theorem dlookup_append_singleton_ne {α : Type} {k k' : String} (hne : k ≠ k') (v : α)
    (l : List (String × α)) : dlookup k (l ++ [(k', v)]) = dlookup k l := by
  induction l with
  | nil =>
    rw [List.nil_append, dlookup_cons, if_neg (fun h => hne h.symm)]
  | cons p rest ih =>
    obtain ⟨a, b⟩ := p
    rw [List.cons_append, dlookup_cons, dlookup_cons]
    by_cases hak : a = k
    · simp [hak]
    · rw [if_neg hak, if_neg hak]; exact ih

theorem dlookup_dinsert_ne {α : Type} {k k' : String} (hne : k ≠ k') (v : α)
    (l : List (String × α)) : dlookup k (dinsert k' v l) = dlookup k l := by
  unfold dinsert
  by_cases hm : dmem k' l
  · rw [if_pos hm]; exact dlookup_map_update_ne hne v l
  · rw [if_neg hm]; exact dlookup_append_singleton_ne hne v l

theorem dlookup_append_of_not_mem_left {α : Type} {k : String} {l : List (String × α)}
    (r : List (String × α)) (h : k ∉ dkeys l) :
    dlookup k (l ++ r) = dlookup k r := by
  induction l with
  | nil => simp
  | cons p rest ih =>
    obtain ⟨a, b⟩ := p
    rw [List.cons_append, dlookup_cons]
    have ha : a ≠ k := by
      intro he; exact h (by simp [dkeys, he])
    rw [if_neg ha]
    exact ih (fun hc => h (by simp [dkeys] at hc ⊢; tauto))

/-! ### The forward geometry loop as a flat list -/

/-- The geometry entries a single parameter contributes in
`fctb_to_smooth`: nothing for `"Material"`, a value and a unit key for a
unit-decorated value, one key for a plain value. -/
def geomBlock (kv : String × PVal) : List (String × GVal) :=
  if kv.1 = "Material" then []
  else
    match kv.2 with
    | .punit d u => [(toSnakeCase kv.1, .gnum d), (toSnakeCase kv.1 ++ "_unit", .gstr u)]
    | .pnum d => [(toSnakeCase kv.1, .gnum d)]
    | .pstr s => [(toSnakeCase kv.1, .gstr s)]

/-- The geometry dict of `fctb_to_smooth` as the concatenation of the
per-parameter blocks. -/
def geomFlat (params : List (String × PVal)) : List (String × GVal) :=
  (params.map geomBlock).flatten

theorem geomStep_eq_append (acc : List (String × GVal)) (kv : String × PVal)
    (h : (dkeys acc ++ dkeys (geomBlock kv)).Nodup) :
    geomStep acc kv = acc ++ geomBlock kv := by
  obtain ⟨k0, v0⟩ := kv
  by_cases hm : k0 = "Material"
  · simp [geomStep, geomBlock, hm]
  · cases v0 with
    | punit d u =>
      have hb : geomBlock (k0, .punit d u) =
          [(toSnakeCase k0, GVal.gnum d), (toSnakeCase k0 ++ "_unit", GVal.gstr u)] := by
        simp [geomBlock, hm]
      rw [hb] at h
      have h1 : toSnakeCase k0 ∉ dkeys acc := by
        intro hc
        exact (List.disjoint_of_nodup_append h) hc (by simp [dkeys])
      have hdistinct : toSnakeCase k0 ≠ toSnakeCase k0 ++ "_unit" := by
        have hnd2 : (dkeys [(toSnakeCase k0, GVal.gnum d),
            (toSnakeCase k0 ++ "_unit", GVal.gstr u)]).Nodup :=
          (List.nodup_append.1 h).2.1
        simp [dkeys] at hnd2
        exact hnd2
      have h2 : toSnakeCase k0 ++ "_unit" ∉ dkeys (acc ++ [(toSnakeCase k0, GVal.gnum d)]) := by
        rw [dkeys_append]
        intro hc
        rcases List.mem_append.1 hc with hc | hc
        · exact (List.disjoint_of_nodup_append h) hc (by simp [dkeys])
        · simp [dkeys] at hc
          exact hdistinct hc.symm
      show geomStep acc (k0, .punit d u) = _
      simp only [geomStep, hm, if_false, hb]
      rw [dinsert_of_not_mem _ h1, dinsert_of_not_mem _ h2, List.append_assoc]
      rfl
    | pnum d =>
      have hb : geomBlock (k0, .pnum d) = [(toSnakeCase k0, GVal.gnum d)] := by
        simp [geomBlock, hm]
      rw [hb] at h
      have h1 : toSnakeCase k0 ∉ dkeys acc := by
        intro hc
        exact (List.disjoint_of_nodup_append h) hc (by simp [dkeys])
      show geomStep acc (k0, .pnum d) = _
      simp only [geomStep, hm, if_false, hb]
      rw [dinsert_of_not_mem _ h1]
    | pstr s =>
      have hb : geomBlock (k0, .pstr s) = [(toSnakeCase k0, GVal.gstr s)] := by
        simp [geomBlock, hm]
      rw [hb] at h
      have h1 : toSnakeCase k0 ∉ dkeys acc := by
        intro hc
        exact (List.disjoint_of_nodup_append h) hc (by simp [dkeys])
      show geomStep acc (k0, .pstr s) = _
      simp only [geomStep, hm, if_false, hb]
      rw [dinsert_of_not_mem _ h1]

theorem foldl_geomStep (params : List (String × PVal)) :
    ∀ acc : List (String × GVal), (dkeys acc ++ dkeys (geomFlat params)).Nodup →
      params.foldl geomStep acc = acc ++ geomFlat params := by
  induction params with
  | nil => intro acc _; simp [geomFlat]
  | cons kv ps ih =>
    intro acc h
    have hflat : geomFlat (kv :: ps) = geomBlock kv ++ geomFlat ps := by
      simp [geomFlat]
    rw [hflat, dkeys_append] at h
    have hstep : geomStep acc kv = acc ++ geomBlock kv :=
      geomStep_eq_append acc kv (by
        have hsub : List.Sublist (dkeys acc ++ dkeys (geomBlock kv))
            (dkeys acc ++ (dkeys (geomBlock kv) ++ dkeys (geomFlat ps))) :=
          List.Sublist.append_left (List.sublist_append_left _ _) _
        exact h.sublist hsub)
    rw [List.foldl_cons, hstep, ih (acc ++ geomBlock kv) (by
      rw [dkeys_append, List.append_assoc]; exact h)]
    rw [hflat, List.append_assoc]

theorem buildGeometry_eq (params : List (String × PVal))
    (h : (dkeys (geomFlat params)).Nodup) :
    buildGeometry params = geomFlat params := by
  have := foldl_geomStep params [] (by simpa [dkeys] using h)
  simpa [buildGeometry] using this

/-! ### The backward geometry loop as a flat list -/

theorem endsWithUnit_append (k : String) : endsWithUnit (k ++ "_unit") = true := by
  simp only [endsWithUnit, strEndsWith, String.data_append]
  exact List.isSuffixOf_iff_suffix.2 (List.suffix_append _ _)

/-- The parameter entries a single geometry item contributes in
`smooth_to_fctb` (with lookups in the full geometry dict `g`): nothing
for a `_unit` key, a formatted string for a key with a unit sibling, a
passthrough otherwise. -/
def backBlock (g : List (String × GVal)) (kv : String × GVal) : List (String × PVal) :=
  if endsWithUnit kv.1 then []
  else
    match dlookup (kv.1 ++ "_unit") g with
    | some u => [(snake_to_camel kv.1, .pstr (format_parameter_value kv.2 (some u)))]
    | none =>
      match kv.2 with
      | .gnum d => [(snake_to_camel kv.1, .pnum d)]
      | .gstr s => [(snake_to_camel kv.1, .pstr s)]

/-- The parameters dict of `smooth_to_fctb` as the concatenation of the
per-entry blocks of `rem`, with lookups in `g`. -/
def backFlat (g rem : List (String × GVal)) : List (String × PVal) :=
  (rem.map (backBlock g)).flatten

/-- Is a geometry scalar numeric (`isinstance(value, (int, float))`)? -/
def gIsNum : GVal → Bool
  | .gnum _ => true
  | .gstr _ => false

/-- A geometry entry on which the loop of `smooth_to_fctb` raises: a
numeric value under a dimensional base key with no unit sibling. -/
def isBareDim (g : List (String × GVal)) (kv : String × GVal) : Prop :=
  endsWithUnit kv.1 = false ∧ dlookup (kv.1 ++ "_unit") g = none ∧
    gIsNum kv.2 = true ∧ kv.1 ∈ dimensionalKeys

instance (g : List (String × GVal)) (kv : String × GVal) : Decidable (isBareDim g kv) := by
  unfold isBareDim
  infer_instance

theorem smoothParamsGo_ok (g : List (String × GVal)) (hg : (dkeys g).Nodup)
    (hbd : ∀ kv ∈ g, ¬isBareDim g kv) :
    ∀ rem params processed, rem <:+ g →
      (dkeys params ++ dkeys (backFlat g rem)).Nodup →
      (∀ k ∈ processed, endsWithUnit k = true ∨ k ∉ dkeys rem) →
      smoothParamsGo g rem params processed = .ok (params ++ backFlat g rem) := by
  intro rem
  induction rem with
  | nil => intro params processed _ _ _; simp [smoothParamsGo, backFlat]
  | cons kv rest ih =>
    intro params processed hsuf hnd hproc
    obtain ⟨key, value⟩ := kv
    have hsuf2 : rest <:+ g := (List.suffix_cons (key, value) rest).trans hsuf
    have hmem : (key, value) ∈ g := hsuf.subset (List.mem_cons_self _ _)
    have hkeyrest : key ∉ dkeys rest := by
      have h1 : (dkeys ((key, value) :: rest)).Nodup :=
        hg.sublist (List.Sublist.map Prod.fst hsuf.sublist)
      exact (List.nodup_cons.1 h1).1
    have hflat : backFlat g ((key, value) :: rest) =
        backBlock g (key, value) ++ backFlat g rest := by
      simp [backFlat]
    have hprocrest : ∀ k ∈ processed, endsWithUnit k = true ∨ k ∉ dkeys rest := by
      intro k hk
      refine (hproc k hk).imp id (fun h hc => h ?_)
      exact List.mem_cons_of_mem _ hc
    by_cases hu : endsWithUnit key = true
    · have hb : backBlock g (key, value) = [] := by simp [backBlock, hu]
      show smoothParamsGo g ((key, value) :: rest) params processed = _
      simp only [smoothParamsGo, hu, if_true]
      rw [hflat, hb, List.nil_append]
      exact ih params processed hsuf2
        (by rw [hflat, hb, List.nil_append] at hnd; exact hnd) hprocrest
    · have hu2 : endsWithUnit key = false := by simpa using hu
      have hkmem : key ∉ processed := by
        intro hc
        rcases hproc key hc with h | h
        · exact hu h
        · exact h (List.mem_cons_self _ _)
      have hkproc : processed.contains key = false := by simpa using hkmem
      cases hlu : dlookup (key ++ "_unit") g with
      | some u =>
        have hb : backBlock g (key, value) =
            [(snake_to_camel key, .pstr (format_parameter_value value (some u)))] := by
          simp [backBlock, hu2, hlu]
        have hnd2 := hnd
        rw [hflat, hb, dkeys_append] at hnd2
        have hfresh : snake_to_camel key ∉ dkeys params := fun hc =>
          (List.disjoint_of_nodup_append hnd2) hc (by simp [dkeys_append, dkeys])
        show smoothParamsGo g ((key, value) :: rest) params processed = _
        simp only [smoothParamsGo, hu2, hkproc, hlu, Bool.false_eq_true, if_false]
        rw [dinsert_of_not_mem _ hfresh, hflat, hb, ← List.append_assoc]
        exact ih (params ++ [(snake_to_camel key,
              .pstr (format_parameter_value value (some u)))])
            (key :: (key ++ "_unit") :: processed) hsuf2
          (by rw [dkeys_append, List.append_assoc]; exact hnd2)
          (by
            intro k hk
            rcases List.mem_cons.1 hk with rfl | hk
            · right; exact hkeyrest
            rcases List.mem_cons.1 hk with rfl | hk
            · left; exact endsWithUnit_append key
            exact hprocrest k hk)
      | none =>
        cases value with
        | gnum d =>
          have hdim : key ∉ dimensionalKeys := fun hdm =>
            hbd (key, .gnum d) hmem ⟨hu2, hlu, rfl, hdm⟩
          have hdimc : dimensionalKeys.contains key = false := by simpa using hdim
          have hb : backBlock g (key, .gnum d) = [(snake_to_camel key, .pnum d)] := by
            simp [backBlock, hu2, hlu]
          have hnd2 := hnd
          rw [hflat, hb, dkeys_append] at hnd2
          have hfresh : snake_to_camel key ∉ dkeys params := fun hc =>
            (List.disjoint_of_nodup_append hnd2) hc (by simp [dkeys_append, dkeys])
          show smoothParamsGo g ((key, .gnum d) :: rest) params processed = _
          simp only [smoothParamsGo, hu2, hkproc, hlu, hdimc, Bool.false_eq_true, if_false]
          rw [dinsert_of_not_mem _ hfresh, hflat, hb, ← List.append_assoc]
          exact ih (params ++ [(snake_to_camel key, .pnum d)])
              (key :: processed) hsuf2
            (by rw [dkeys_append, List.append_assoc]; exact hnd2)
            (by
              intro k hk
              rcases List.mem_cons.1 hk with rfl | hk
              · right; exact hkeyrest
              exact hprocrest k hk)
        | gstr s =>
          have hb : backBlock g (key, .gstr s) = [(snake_to_camel key, .pstr s)] := by
            simp [backBlock, hu2, hlu]
          have hnd2 := hnd
          rw [hflat, hb, dkeys_append] at hnd2
          have hfresh : snake_to_camel key ∉ dkeys params := fun hc =>
            (List.disjoint_of_nodup_append hnd2) hc (by simp [dkeys_append, dkeys])
          show smoothParamsGo g ((key, .gstr s) :: rest) params processed = _
          simp only [smoothParamsGo, hu2, hkproc, hlu, Bool.false_eq_true, if_false]
          rw [dinsert_of_not_mem _ hfresh, hflat, hb, ← List.append_assoc]
          exact ih (params ++ [(snake_to_camel key, .pstr s)])
              (key :: processed) hsuf2
            (by rw [dkeys_append, List.append_assoc]; exact hnd2)
            (by
              intro k hk
              rcases List.mem_cons.1 hk with rfl | hk
              · right; exact hkeyrest
              exact hprocrest k hk)

theorem smoothParamsGo_err (g : List (String × GVal)) (hg : (dkeys g).Nodup) :
    ∀ rem params processed, rem <:+ g →
      (∀ k ∈ processed, endsWithUnit k = true ∨ k ∉ dkeys rem) →
      (∃ kv ∈ rem, isBareDim g kv) →
      ∃ key d, (key, GVal.gnum d) ∈ g ∧ key ∈ dimensionalKeys ∧
        dlookup (key ++ "_unit") g = none ∧
        smoothParamsGo g rem params processed = .error (dimErrorMsg key) := by
  intro rem
  induction rem with
  | nil => rintro params processed _ _ ⟨kv, hkv, _⟩; cases hkv
  | cons kv rest ih =>
    intro params processed hsuf hproc hex
    obtain ⟨key, value⟩ := kv
    have hsuf2 : rest <:+ g := (List.suffix_cons (key, value) rest).trans hsuf
    have hmem : (key, value) ∈ g := hsuf.subset (List.mem_cons_self _ _)
    have hkeyrest : key ∉ dkeys rest := by
      have h1 : (dkeys ((key, value) :: rest)).Nodup :=
        hg.sublist (List.Sublist.map Prod.fst hsuf.sublist)
      exact (List.nodup_cons.1 h1).1
    have hprocrest : ∀ k ∈ processed, endsWithUnit k = true ∨ k ∉ dkeys rest := by
      intro k hk
      refine (hproc k hk).imp id (fun h hc => h ?_)
      exact List.mem_cons_of_mem _ hc
    by_cases hu : endsWithUnit key = true
    · have hex2 : ∃ kv ∈ rest, isBareDim g kv := by
        rcases hex with ⟨kv2, hkv2, hbare⟩
        rcases List.mem_cons.1 hkv2 with rfl | hkv2
        · simp [isBareDim, hu] at hbare
        · exact ⟨kv2, hkv2, hbare⟩
      simp only [smoothParamsGo, hu, if_true]
      exact ih params processed hsuf2 hprocrest hex2
    · have hu2 : endsWithUnit key = false := by simpa using hu
      have hkmem : key ∉ processed := by
        intro hc
        rcases hproc key hc with h | h
        · exact hu h
        · exact h (List.mem_cons_self _ _)
      have hkproc : processed.contains key = false := by simpa using hkmem
      cases hlu : dlookup (key ++ "_unit") g with
      | some u =>
        have hex2 : ∃ kv ∈ rest, isBareDim g kv := by
          rcases hex with ⟨kv2, hkv2, hbare⟩
          rcases List.mem_cons.1 hkv2 with rfl | hkv2
          · simp [isBareDim, hlu] at hbare
          · exact ⟨kv2, hkv2, hbare⟩
        simp only [smoothParamsGo, hu2, hkproc, hlu, Bool.false_eq_true, if_false]
        exact ih _ _ hsuf2
          (by
            intro k hk
            rcases List.mem_cons.1 hk with rfl | hk
            · right; exact hkeyrest
            rcases List.mem_cons.1 hk with rfl | hk
            · left; exact endsWithUnit_append key
            exact hprocrest k hk)
          hex2
      | none =>
        cases value with
        | gnum d =>
          by_cases hdm : key ∈ dimensionalKeys
          · have hdimc : dimensionalKeys.contains key = true := by simpa using hdm
            refine ⟨key, d, hmem, hdm, hlu, ?_⟩
            simp only [smoothParamsGo, hu2, hkproc, hlu, hdimc, Bool.false_eq_true,
              if_false, if_true]
          · have hdimc : dimensionalKeys.contains key = false := by simpa using hdm
            have hex2 : ∃ kv ∈ rest, isBareDim g kv := by
              rcases hex with ⟨kv2, hkv2, hbare⟩
              rcases List.mem_cons.1 hkv2 with rfl | hkv2
              · exact absurd hbare.2.2.2 hdm
              · exact ⟨kv2, hkv2, hbare⟩
            simp only [smoothParamsGo, hu2, hkproc, hlu, hdimc, Bool.false_eq_true, if_false]
            exact ih _ _ hsuf2
              (by
                intro k hk
                rcases List.mem_cons.1 hk with rfl | hk
                · right; exact hkeyrest
                exact hprocrest k hk)
              hex2
        | gstr s =>
          have hex2 : ∃ kv ∈ rest, isBareDim g kv := by
            rcases hex with ⟨kv2, hkv2, hbare⟩
            rcases List.mem_cons.1 hkv2 with rfl | hkv2
            · simp [isBareDim, gIsNum] at hbare
            · exact ⟨kv2, hkv2, hbare⟩
          simp only [smoothParamsGo, hu2, hkproc, hlu, Bool.false_eq_true, if_false]
          exact ih _ _ hsuf2
            (by
              intro k hk
              rcases List.mem_cons.1 hk with rfl | hk
              · right; exact hkeyrest
              exact hprocrest k hk)
            hex2

theorem smoothParams_ok (g : List (String × GVal)) (hg : (dkeys g).Nodup)
    (hnd : (dkeys (backFlat g g)).Nodup) (hbd : ∀ kv ∈ g, ¬isBareDim g kv) :
    smoothParams g = .ok (backFlat g g) := by
  have := smoothParamsGo_ok g hg hbd g [] [] (List.suffix_refl g)
    (by simpa [dkeys] using hnd) (by intro k hk; cases hk)
  simpa [smoothParams] using this

theorem smoothParams_err (g : List (String × GVal)) (hg : (dkeys g).Nodup)
    (hex : ∃ kv ∈ g, isBareDim g kv) :
    ∃ key d, (key, GVal.gnum d) ∈ g ∧ key ∈ dimensionalKeys ∧
      dlookup (key ++ "_unit") g = none ∧
      smoothParams g = .error (dimErrorMsg key) := by
  have := smoothParamsGo_err g hg g [] [] (List.suffix_refl g)
    (by intro k hk; cases hk) hex
  simpa [smoothParams] using this

/-! ### Claim C4: the unit-parsing heuristic -/

/-- C4: `UnitValueCodec.parse` (`parse_parameter_value`) returns any
non-textual input unchanged; for a textual input whose stripped form
matches a leading signed decimal number followed by an optional
separator and a remainder, it returns the value/unit pair exactly when
the remainder contains one of the unit indicators
`{"m", "°", "in", "deg"}` and the original string otherwise; a
non-matching textual input is returned unchanged; and
`parse("5.00 mm") = {value: 5.0, unit: "mm"}`,
`parse("119.00°") = {value: 119.0, unit: "°"}`, `parse("HSS") = "HSS"`,
`parse(2) = 2`. -/
theorem c4_parse_unit_heuristic :
    (∀ d : Dec, parse_parameter_value (.pnum d) = .pnum d) ∧
    (∀ (d : Dec) (u : String), parse_parameter_value (.punit d u) = .punit d u) ∧
    (∀ (s : String) (numPart unitPart : List Char),
      numSplit (pyStrip s.data) = some (numPart, unitPart) →
      (hasUnitIndicator unitPart = true →
        parse_parameter_value (.pstr s) =
          .punit (pyFloat numPart) (String.mk (pyStrip unitPart))) ∧
      (hasUnitIndicator unitPart = false → parse_parameter_value (.pstr s) = .pstr s)) ∧
    (∀ s : String, numSplit (pyStrip s.data) = none →
      parse_parameter_value (.pstr s) = .pstr s) ∧
    parse_parameter_value (.pstr "5.00 mm") = .punit ⟨5, 0⟩ "mm" ∧
    parse_parameter_value (.pstr "119.00°") = .punit ⟨119, 0⟩ "°" ∧
    parse_parameter_value (.pstr "HSS") = .pstr "HSS" ∧
    parse_parameter_value (.pnum ⟨2, 0⟩) = .pnum ⟨2, 0⟩ := by
  refine ⟨fun d => rfl, fun d u => rfl, ?_, ?_, by decide, by decide, by decide, rfl⟩
  · intro s numPart unitPart h
    constructor <;> intro hi <;> simp [parse_parameter_value, h, hi]
  · intro s h
    simp [parse_parameter_value, h]

/-- C4 witness: the general clauses applied at `"7 in"` (indicator
present) and `"12 xy"` (no indicator). -/
theorem c4_parse_unit_heuristic_witness :
    parse_parameter_value (.pstr "7 in") = .punit ⟨7, 0⟩ "in" ∧
    parse_parameter_value (.pstr "12 xy") = .pstr "12 xy" := by
  constructor
  · exact ((c4_parse_unit_heuristic.2.2.1 "7 in" "7".data "in".data (by decide)).1
      (by decide)).trans (by decide)
  · exact (c4_parse_unit_heuristic.2.2.1 "12 xy" "12".data "xy".data (by decide)).2
      (by decide)

/-! ### Claim C5: the unit-formatting function -/

/-- C5: `UnitValueCodec.format` (`format_parameter_value`) returns the
plain string form of the value when the unit is absent; a numeric value
with a unit is rendered with exactly two decimal digits, concatenated
without a space for the degree symbol and joined with exactly one space
otherwise (zero still renders, `"0.00 mm"`); a non-numeric value with a
unit is returned in plain string form with the unit dropped. -/
theorem c5_format_unit_rendering :
    (∀ v : GVal, format_parameter_value v none = pyStrG v) ∧
    (∀ d : Dec, format_parameter_value (.gnum d) (some (.gstr "°")) = formatFixed2 d ++ "°") ∧
    (∀ (d : Dec) (u : String), u ≠ "°" →
      format_parameter_value (.gnum d) (some (.gstr u)) = formatFixed2 d ++ " " ++ u) ∧
    (∀ d : Dec, ∃ intPart frac : String, formatFixed2 d = intPart ++ "." ++ frac ∧
      frac.length = 2 ∧ ∀ c ∈ frac.data, c.isDigit) ∧
    (∀ (s : String) (u : GVal), format_parameter_value (.gstr s) (some u) = pyStrG (.gstr s)) ∧
    format_parameter_value (.gnum ⟨5, 0⟩) (some (.gstr "mm")) = "5.00 mm" ∧
    format_parameter_value (.gnum ⟨60, 0⟩) (some (.gstr "°")) = "60.00°" ∧
    format_parameter_value (.gnum ⟨0, 0⟩) (some (.gstr "mm")) = "0.00 mm" := by
  have hpad : ∀ m, m < 100 → (pad2 m).length = 2 ∧ ∀ c ∈ (pad2 m).data, c.isDigit := by decide
  refine ⟨fun v => rfl, fun d => by simp [format_parameter_value],
    ?_, ?_, fun s u => rfl, by decide, by decide, by decide⟩
  · intro d u hu
    simp [format_parameter_value, pyStrG, hu]
  · intro d
    refine ⟨(if d.mant < 0 then "-" else "") ++ toString (decAbsTimes100 d / 100),
      pad2 (decAbsTimes100 d % 100), ?_, ?_, ?_⟩
    · simp [formatFixed2, String.append_assoc]
    · exact (hpad _ (Nat.mod_lt _ (by decide))).1
    · exact (hpad _ (Nat.mod_lt _ (by decide))).2

/-- C5 witness: the space-joined clause applied at `2.5` and `"mm"`. -/
theorem c5_format_unit_rendering_witness :
    format_parameter_value (.gnum ⟨25, 1⟩) (some (.gstr "mm")) = "2.50 mm" := by
  exact (c5_format_unit_rendering.2.2.1 ⟨25, 1⟩ "mm" (by decide)).trans (by decide)

/-! ### Claim C10: integrity verification is total -/

theorem afterFirstColon_append (l r : List Char) (h : ':' ∉ l) :
    afterFirstColon (l ++ ':' :: r) = r := by
  induction l with
  | nil => simp [afterFirstColon]
  | cons x xs ih =>
    have hx : x ≠ ':' := fun hcc => h (hcc ▸ List.mem_cons_self x xs)
    simp only [List.cons_append, afterFirstColon, if_neg hx]
    exact ih (fun hcc => h (List.mem_cons_of_mem x hcc))

/-- C10: `verifyIntegrity` (`verify_shape_file_integrity`) returns a
boolean for every input: `false` when the file does not exist; when the
expected hash has no `':'`, the whole string is compared as a bare
digest; when it has an `algo:digest` form, the algorithm prefix is
stripped and never validated (any prefix yields the same comparison). -/
theorem c10_verify_integrity_total {α : Type} (hashFn : α → String)
    (fs : String → Option α) (p e : String) :
    (fs p = none → verify_shape_file_integrity hashFn fs p e = false) ∧
    (∀ c, fs p = some c → e.data.contains ':' = false →
      verify_shape_file_integrity hashFn fs p e = (hashFn c == e)) ∧
    (∀ c algo digest, fs p = some c → algo.data.contains ':' = false →
      verify_shape_file_integrity hashFn fs p (algo ++ ":" ++ digest) =
        (hashFn c == digest)) := by
  refine ⟨?_, ?_, ?_⟩
  · intro h; simp [verify_shape_file_integrity, h]
  · intro c hc he
    have he2 : ':' ∉ e.data := by simpa using he
    simp [verify_shape_file_integrity, hc, he2]
  · intro c algo digest hc halgo
    have hdata : (algo ++ ":" ++ digest).data = algo.data ++ ':' :: digest.data := by
      simp [String.data_append]
    have hnocolon : ':' ∉ algo.data := by simpa using halgo
    have hafter : afterFirstColon (algo.data ++ ':' :: digest.data) = digest.data :=
      afterFirstColon_append algo.data digest.data hnocolon
    have hcontains : (algo.data ++ ':' :: digest.data).contains ':' = true := by simp
    simp only [verify_shape_file_integrity, hc, hdata, hcontains, if_true, hafter]

/-- C10 witness: the three clauses applied at a two-entry filesystem
with a digest function on `Nat` contents. -/
theorem c10_verify_integrity_total_witness :
    (verify_shape_file_integrity (fun n : Nat => toString n)
      (fun q => if q = "f" then some 3 else none) "g" "sha256:3" = false) ∧
    (verify_shape_file_integrity (fun n : Nat => toString n)
      (fun q => if q = "f" then some 3 else none) "f" "3" = (toString (3 : Nat) == "3")) ∧
    (verify_shape_file_integrity (fun n : Nat => toString n)
      (fun q => if q = "f" then some 3 else none) "f" ("md5" ++ ":" ++ "3") =
      (toString (3 : Nat) == "3")) := by
  refine ⟨?_, ?_, ?_⟩
  · exact (c10_verify_integrity_total _ _ "g" "sha256:3").1 (by decide)
  · exact (c10_verify_integrity_total _ _ "f" "3").2.1 3 (by decide) (by decide)
  · exact (c10_verify_integrity_total _ _ "f" ("md5" ++ ":" ++ "3")).2.2 3 "md5" "3"
      (by decide) (by decide)

/-! ### Claim C8: duplicate detection (code bug) -/

/-- A parsed tool bit carrying a native id, as produced from an on-disk
`.fctb` file before export. -/
def dupTool : Tool :=
  { version := 2, id := some "X", name := "Drill", shape := "d.fcstd",
    shape_type := "Drill", parameters := [("Diameter", .punit ⟨6, 0⟩ "mm")],
    attrs := [], original := {} }

/-- A candidate ToolItem with no native id but a structural signature
`D|6.0`. -/
def sigTool : SmoothTool :=
  { description := some "D", geometry := [("diameter", .gnum ⟨6, 0⟩)] }

/-- A candidate ToolItem carrying a top-level id (the only field
`check_duplicates` actually reads for the native-id test). -/
def topIdTool : SmoothTool := { id := some "X" }

/-- C8: evaluation of `check_duplicates` on the failing input.  The
ToolItem converted from a native tool with id `"X"` carries that id only
in `freecad_metadata` (its top-level `id` is absent), and
`check_duplicates` reads only the top-level `id`, so the native-id index
`["X"]` is never consulted and the candidate is not reported as a
duplicate — contradicting the claim.  The structural-signature key and
the no-match case behave as claimed. -/
theorem c8_duplicate_checks_eval :
    (fctb_to_smooth dupTool).freecad_metadata =
      some { shape := some "d.fcstd", shape_type := some "Drill",
             id := some (some "X"), version := some 2 } ∧
    (fctb_to_smooth dupTool).id = none ∧
    check_duplicates (fctb_to_smooth dupTool) ["X"] [] = (false, "") ∧
    check_duplicates topIdTool ["X"] [] = (true, "FreeCAD ID") ∧
    check_duplicates sigTool [] ["D|6.0"] = (true, "description+diameter") ∧
    check_duplicates sigTool [] [] = (false, "") := by
  decide

/-! ### Claim C9: tool-library parsing -/

/-- C9 (amended): `parseToolLibrary` (`parse_fctl_dict`) fails exactly
when `version` or `tools` is absent (collecting the missing names into
one error) or when `tools` is not a sequence; on success the label is
the `label` field when present and non-empty, else the value of the
`name` field (possibly absent), and the original document is retained. -/
theorem c9_parse_library_validation (d : FctlDoc) :
    ((∃ l, parse_fctl_dict d = .ok l) ↔
      (d.version.isSome ∧ ∃ ts, d.tools = some (.tlist ts))) ∧
    (fctlMissing d ≠ [] →
      parse_fctl_dict d = .error ("Missing required fields: " ++ joinComma (fctlMissing d))) ∧
    (∀ v, d.version = some v → d.tools = some .nonList →
      parse_fctl_dict d = .error "\x27tools\x27 field must be a list") ∧
    (∀ l, parse_fctl_dict d = .ok l →
      l.label = (if pyTruthyOptStr d.label then d.label else d.name) ∧
      l.original = d ∧
      (∀ v, d.version = some v → l.version = v) ∧
      (∀ ts, d.tools = some (.tlist ts) → l.tools = ts)) := by
  obtain ⟨v, lab, nm, ts⟩ := d
  refine ⟨?_, ?_, ?_, ?_⟩ <;>
    cases v <;> rcases ts with _ | tf <;> (try cases tf) <;>
      simp [parse_fctl_dict, fctlMissing, fctlHas, joinComma]

/-- A complete library document with label `"L"`. -/
def fullLibDoc : FctlDoc :=
  { version := some 1, label := some "L", tools := some (.tlist []) }

/-- C9 witness: validation applied at a document missing both fields and
at a complete document. -/
theorem c9_parse_library_validation_witness :
    parse_fctl_dict ({} : FctlDoc) = .error "Missing required fields: version, tools" ∧
    (∀ l, parse_fctl_dict fullLibDoc = .ok l → l.label = some "L") := by
  constructor
  · exact ((c9_parse_library_validation {}).2.1 (by decide)).trans (by decide)
  · intro l hl
    have := ((c9_parse_library_validation fullLibDoc).2.2.2 l hl).1
    simpa [fullLibDoc, pyTruthyOptStr] using this

/-- A library document whose `label` key is present but empty. -/
def emptyLabelDoc : FctlDoc :=
  { version := some 1, label := some "", name := some "N", tools := some (.tlist []) }

/-- C9 counterexample: a document whose `label` field is present but
empty takes its label from `name` instead, so "label is taken from the
input's label field when present" fails as stated. -/
theorem c9_label_truthiness_cex :
    (parse_fctl_dict emptyLabelDoc).map Library.label = .ok (some "N") ∧
    emptyLabelDoc.label = some "" ∧
    (.ok (some "N") : Except String (Option String)) ≠ .ok (some "") := by
  decide

/-! ### Claim C6: tool-bit parsing -/

set_option maxHeartbeats 2000000 in
/-- C6: `parseToolBit` (`parse_fctb_dict`) fails exactly when one of
{version, name, shape, shape-type, parameter} is absent; the single
error lists every missing key; on success every parameter value has
been passed through `parse_parameter_value`, `attribute` defaults to an
empty mapping, and the entire input document is retained. -/
theorem c6_parse_toolbit_validation (d : FctbDoc) :
    ((∃ t, parse_fctb_dict d = .ok t) ↔ fctbMissing d = []) ∧
    (fctbMissing d = [] ↔ (d.version.isSome ∧ d.name.isSome ∧ d.shape.isSome ∧
      d.shapeType.isSome ∧ d.parameter.isSome)) ∧
    (∀ f, f ∈ fctbMissing d ↔ (f ∈ fctbRequired ∧ fctbHas d f = false)) ∧
    (fctbMissing d ≠ [] →
      parse_fctb_dict d = .error ("Missing required fields: " ++ joinComma (fctbMissing d))) ∧
    (∀ t, parse_fctb_dict d = .ok t →
      t.parameters = (d.parameter.getD []).map (fun kv => (kv.1, parse_parameter_value kv.2)) ∧
      t.attrs = d.attrs.getD [] ∧ t.original = d ∧ t.id = d.id ∧
      (∀ v, d.version = some v → t.version = v) ∧
      (∀ n, d.name = some n → t.name = n) ∧
      (∀ sh, d.shape = some sh → t.shape = sh) ∧
      (∀ st, d.shapeType = some st → t.shape_type = st)) := by
  obtain ⟨v, i, n, sh, st, ps, att⟩ := d
  refine ⟨?_, ?_, fun f => by simp [fctbMissing, List.mem_filter], ?_, ?_⟩ <;>
    cases v <;> cases n <;> cases sh <;> cases st <;> cases ps <;>
      simp [parse_fctb_dict, fctbMissing, fctbRequired, fctbHas, joinComma]

/-- A tool-bit document missing `name` and `parameter`. -/
def missingFieldsDoc : FctbDoc :=
  { version := some 2, shape := some "e.fcstd", shapeType := some "Endmill" }

/-- A complete tool-bit document with one unit-decorated parameter. -/
def fullBitDoc : FctbDoc :=
  { version := some 2, name := some "T", shape := some "e.fcstd",
    shapeType := some "Endmill", parameter := some [("Diameter", .pstr "6.00 mm")] }

/-- C6 witness: validation applied at a document missing `name` and
`parameter` (both are listed in the one error) and at a complete
document. -/
theorem c6_parse_toolbit_validation_witness :
    parse_fctb_dict missingFieldsDoc = .error "Missing required fields: name, parameter" ∧
    (∀ t, parse_fctb_dict fullBitDoc = .ok t →
      t.parameters = [("Diameter", .punit ⟨6, 0⟩ "mm")]) := by
  constructor
  · exact ((c6_parse_toolbit_validation missingFieldsDoc).2.2.2.1 (by decide)).trans (by decide)
  · intro t ht
    have := ((c6_parse_toolbit_validation fullBitDoc).2.2.2.2 t ht).1
    rw [this]
    decide

/-! ### Claim C3: key transliteration in the forward conversion -/

/-- C3 (amended): in `fctb_to_smooth`, provided the transliterated keys
are pairwise distinct (a Python dict cannot hold duplicate keys), every
parameter key other than the literal `"Material"` lands in `geometry`
under `toSnakeCase` of its name — an underscore inserted before each
capital letter after the first character, the whole key lower-cased
(per letter, not per capital-letter run) — with a unit-decorated value
emitting exactly the two keys `<key>` and `<key>_unit` and a plain
value exactly one key. -/
theorem c3_key_transliteration (tool : Tool)
    (h : (dkeys (geomFlat tool.parameters)).Nodup) :
    (fctb_to_smooth tool).geometry =
      (tool.parameters.map (fun kv =>
        if kv.1 = "Material" then []
        else
          match kv.2 with
          | .punit d u =>
            [(toSnakeCase kv.1, GVal.gnum d), (toSnakeCase kv.1 ++ "_unit", GVal.gstr u)]
          | .pnum d => [(toSnakeCase kv.1, GVal.gnum d)]
          | .pstr s => [(toSnakeCase kv.1, GVal.gstr s)])).flatten := by
  have h1 : (fctb_to_smooth tool).geometry = buildGeometry tool.parameters := rfl
  rw [h1, buildGeometry_eq tool.parameters h]
  rfl

/-- A parsed tool bit with one unit-decorated and one plain parameter. -/
def snakeTool : Tool :=
  { version := 2, id := none, name := "T", shape := "e.fcstd",
    shape_type := "Endmill",
    parameters := [("TipAngle", .punit ⟨119, 0⟩ "°"), ("Flutes", .pnum ⟨2, 0⟩)],
    attrs := [], original := {} }

/-- C3 witness: the transliteration theorem applied at a concrete tool;
`TipAngle` emits `tip_angle`/`tip_angle_unit`, `Flutes` emits one key. -/
theorem c3_key_transliteration_witness :
    (fctb_to_smooth snakeTool).geometry =
      [("tip_angle", GVal.gnum ⟨119, 0⟩), ("tip_angle_unit", GVal.gstr "°"),
       ("flutes", GVal.gnum ⟨2, 0⟩)] :=
  (c3_key_transliteration snakeTool (by decide)).trans (by decide)

/-- A parsed tool bit with an all-capitals parameter key. -/
def acronymTool : Tool :=
  { version := 2, id := none, name := "T", shape := "e.fcstd",
    shape_type := "Endmill", parameters := [("ID", .pnum ⟨2, 0⟩)],
    attrs := [], original := {} }

/-- C3 counterexample: the code inserts an underscore before **each**
capital letter, not before each capital-letter run as the claim states:
the key `"ID"` becomes `"i_d"`, while the claim's run rule
(`specSnakeCase`) yields `"id"`. -/
theorem c3_capital_run_cex :
    (fctb_to_smooth acronymTool).geometry = [("i_d", GVal.gnum ⟨2, 0⟩)] ∧
    specSnakeCase "ID" = "id" ∧ toSnakeCase "ID" = "i_d" ∧
    ("i_d" : String) ≠ "id" := by
  decide

/-! ### Claim C7: shape-file resolution order -/

theorem resolveShapeFile_eq_spec (t : SmoothTool) (dflt : String) :
    resolveShapeFile t.freecad_metadata t.shape_data dflt = resolveShapeSpec t dflt := by
  unfold resolveShapeFile resolveShapeSpec
  cases hm : t.freecad_metadata.bind FreecadMeta.shape with
  | some s =>
    by_cases hs : s = ""
    · subst hs
      simp only [pyTruthyOptStr, ne_eq, not_true_eq_false, decide_eq_true_eq,
        List.filterMap_cons, id_eq]
      cases hsd : t.shape_data with
      | none => simp [pyTruthyOptStr]
      | some sd =>
        cases hrv : sd.reference_value with
        | some rv =>
          by_cases hr : rv = "" <;>
            cases hor : sd.metadata_original_reference <;>
              simp_all [pyTruthyOptStr] <;> split_ifs <;> simp_all
        | none =>
          cases hor : sd.metadata_original_reference <;>
            simp_all [pyTruthyOptStr] <;> split_ifs <;> simp_all
    · simp [pyTruthyOptStr, hs]
  | none =>
    simp only [pyTruthyOptStr, Bool.false_eq_true, if_false, List.filterMap_cons,
      List.filterMap_nil]
    cases hsd : t.shape_data with
    | none => simp [pyTruthyOptStr]
    | some sd =>
      cases hrv : sd.reference_value with
      | some rv =>
        by_cases hr : rv = "" <;>
          cases hor : sd.metadata_original_reference <;>
            simp_all [pyTruthyOptStr] <;> split_ifs <;> simp_all
      | none =>
        cases hor : sd.metadata_original_reference <;>
          simp_all [pyTruthyOptStr] <;> split_ifs <;> simp_all

/-- C7: whenever `smooth_to_fctb` succeeds, the output's shape file is
the first non-empty candidate among `nativeMetadata.shape`,
`shapeAttachment.reference.value`,
`shapeAttachment.metadata.original_reference`, else the synthesized
default `"<defaultShapeFile>.fcstd"` (`resolveShapeSpec` spells out the
spec's resolution order). -/
theorem c7_shape_file_resolution (t : SmoothTool) (dflt : String) :
    ∀ f, smooth_to_fctb t dflt = .ok f → f.shape = resolveShapeSpec t dflt := by
  intro f hf
  cases hsp : smoothParams t.geometry with
  | error e => simp [smooth_to_fctb, hsp] at hf
  | ok ps =>
    simp only [smooth_to_fctb, hsp] at hf
    rw [Except.ok.injEq] at hf
    subst hf
    exact resolveShapeFile_eq_spec t dflt

/-- A ToolItem whose metadata shape is empty and whose attachment has a
reference value. -/
def refShapeTool : SmoothTool :=
  { freecad_metadata := some { shape := some "" },
    shape_data := some { reference_value := some "x.fcstd" } }

/-- The expected output of converting `refShapeTool`. -/
def refShapeOut : FctbOut :=
  { version := 2, name := "Unnamed Tool", shape := "x.fcstd",
    shape_type := "Endmill", parameter := [], attrs := [], id := none }

/-- C7 witness: resolution applied at a concrete item where the
metadata shape is empty, so the attachment's reference value wins. -/
theorem c7_shape_file_resolution_witness :
    ∃ f, smooth_to_fctb refShapeTool "endmill" = .ok f ∧ f.shape = "x.fcstd" := by
  refine ⟨refShapeOut, by decide, ?_⟩
  exact (c7_shape_file_resolution refShapeTool "endmill" refShapeOut (by decide)).trans
    (by decide)

/-! ### Claim C2: dimensional keys require unit siblings -/

theorem mem_backFlat_of_mem (g : List (String × GVal)) (kv : String × GVal)
    (hkv : kv ∈ g) (x : String × PVal) (hx : x ∈ backBlock g kv) :
    x ∈ backFlat g g := by
  simp only [backFlat, List.mem_flatten]
  exact ⟨backBlock g kv, List.mem_map.2 ⟨kv, hkv, rfl⟩, hx⟩

/-- The successful result of `smooth_to_fctb`, spelled out. -/
theorem smooth_to_fctb_ok_form (t : SmoothTool) (dflt : String) (ps : List (String × PVal))
    (hok : smoothParams t.geometry = .ok ps) :
    smooth_to_fctb t dflt = .ok
      { version := (t.freecad_metadata.bind FreecadMeta.version).getD 2
        name := t.description.getD "Unnamed Tool"
        shape := resolveShapeFile t.freecad_metadata t.shape_data dflt
        shape_type :=
          match t.freecad_metadata with
          | some m =>
            match m.shape_type with
            | some st => st
            | none => reverse_map_shape_type (t.type.getD "cutting_tool")
          | none => reverse_map_shape_type (t.type.getD "cutting_tool")
        parameter :=
          match t.material_type with
          | some mv => if pyTruthyP mv then dinsert "Material" mv ps else ps
          | none => ps
        attrs := []
        id :=
          match t.freecad_metadata with
          | some m =>
            match m.id with
            | some v => some v
            | none => t.id.map some
          | none => t.id.map some } := by
  simp only [smooth_to_fctb, hok]

/-- C2 (amended): for a ToolItem whose geometry (a dict, so keys are
distinct) contains a dimensional base key holding a **numeric** value
with no `<key>_unit` sibling, `smooth_to_fctb` fails with the
`ValueError` naming that key and its missing unit field; a base key
outside the dimensional set with no unit sibling passes through under
its PascalCase name, numbers staying numeric and non-numbers
stringified.  (The code only raises for numeric values; a string-valued
dimensional key without a unit passes through, see the
counterexample.) -/
theorem c2_dimensional_unit_validation (t : SmoothTool) (dflt : String)
    (hnd : (dkeys t.geometry).Nodup)
    (hnd2 : (dkeys (backFlat t.geometry t.geometry)).Nodup) :
    ((∃ kv ∈ t.geometry, isBareDim t.geometry kv) →
      ∃ key d2, (key, GVal.gnum d2) ∈ t.geometry ∧ key ∈ dimensionalKeys ∧
        dlookup (key ++ "_unit") t.geometry = none ∧
        smooth_to_fctb t dflt = .error ("Dimensional parameter \x27" ++ key ++
          "\x27 missing required unit field \x27" ++ key ++ "_unit\x27")) ∧
    ((∀ kv ∈ t.geometry, ¬isBareDim t.geometry kv) →
      ∀ k v, (k, v) ∈ t.geometry → endsWithUnit k = false →
        dlookup (k ++ "_unit") t.geometry = none → k ∉ dimensionalKeys →
        snake_to_camel k ≠ "Material" →
        ∃ f, smooth_to_fctb t dflt = .ok f ∧
          dlookup (snake_to_camel k) f.parameter =
            some (match v with | .gnum d2 => PVal.pnum d2 | .gstr s => PVal.pstr s)) := by
  constructor
  · intro hex
    obtain ⟨key, d2, hmem, hdim, hlu, herr⟩ := smoothParams_err t.geometry hnd hex
    refine ⟨key, d2, hmem, hdim, hlu, ?_⟩
    show smooth_to_fctb t dflt = .error (dimErrorMsg key)
    simp [smooth_to_fctb, herr]
  · intro hbd k v hkv hu hlu hdim hmat
    have hok := smoothParams_ok t.geometry hnd hnd2 hbd
    cases v with
    | gnum d2 =>
      have hblock : backBlock t.geometry (k, .gnum d2) =
          [(snake_to_camel k, PVal.pnum d2)] := by
        simp [backBlock, hu, hlu]
      have hentry : (snake_to_camel k, PVal.pnum d2) ∈ backFlat t.geometry t.geometry := by
        apply mem_backFlat_of_mem t.geometry (k, .gnum d2) hkv
        rw [hblock]
        exact List.mem_singleton.2 rfl
      have hlook := dlookup_eq_of_mem_nodup hnd2 hentry
      refine ⟨_, smooth_to_fctb_ok_form t dflt _ hok, ?_⟩
      dsimp only
      cases hmt : t.material_type with
      | none => exact hlook
      | some mv =>
        by_cases htr : pyTruthyP mv
        · simp only [htr, if_true]
          rw [dlookup_dinsert_ne hmat]
          exact hlook
        · simp only [htr, Bool.false_eq_true, if_false]
          exact hlook
    | gstr s =>
      have hblock : backBlock t.geometry (k, .gstr s) =
          [(snake_to_camel k, PVal.pstr s)] := by
        simp [backBlock, hu, hlu]
      have hentry : (snake_to_camel k, PVal.pstr s) ∈ backFlat t.geometry t.geometry := by
        apply mem_backFlat_of_mem t.geometry (k, .gstr s) hkv
        rw [hblock]
        exact List.mem_singleton.2 rfl
      have hlook := dlookup_eq_of_mem_nodup hnd2 hentry
      refine ⟨_, smooth_to_fctb_ok_form t dflt _ hok, ?_⟩
      dsimp only
      cases hmt : t.material_type with
      | none => exact hlook
      | some mv =>
        by_cases htr : pyTruthyP mv
        · simp only [htr, if_true]
          rw [dlookup_dinsert_ne hmat]
          exact hlook
        · simp only [htr, Bool.false_eq_true, if_false]
          exact hlook

/-- A ToolItem with a bare numeric dimensional geometry key. -/
def bareDiaTool : SmoothTool := { geometry := [("diameter", .gnum ⟨5, 0⟩)] }

/-- A ToolItem with a bare numeric non-dimensional geometry key. -/
def flutesTool : SmoothTool := { geometry := [("flutes", .gnum ⟨4, 0⟩)] }

/-- C2 witness: the validation theorem applied at geometry
`{"diameter": 5.0}` (fails naming `diameter`/`diameter_unit`) and at
`{"flutes": 4.0}` (passes through numerically). -/
theorem c2_dimensional_unit_validation_witness :
    (∃ key d2, (key, GVal.gnum d2) ∈ bareDiaTool.geometry ∧ key ∈ dimensionalKeys ∧
      dlookup (key ++ "_unit") bareDiaTool.geometry = none ∧
      smooth_to_fctb bareDiaTool "endmill" = .error ("Dimensional parameter \x27" ++ key ++
        "\x27 missing required unit field \x27" ++ key ++ "_unit\x27")) ∧
    (∃ f, smooth_to_fctb flutesTool "endmill" = .ok f ∧
      dlookup "Flutes" f.parameter = some (PVal.pnum ⟨4, 0⟩)) := by
  constructor
  · exact (c2_dimensional_unit_validation bareDiaTool "endmill" (by decide) (by decide)).1
      (by decide)
  · exact (c2_dimensional_unit_validation flutesTool "endmill" (by decide) (by decide)).2
      (by decide) "flutes" (.gnum ⟨4, 0⟩) (by decide) (by decide) (by decide) (by decide)
      (by decide)

/-- A ToolItem whose dimensional key holds a string value. -/
def strDiaTool : SmoothTool := { geometry := [("diameter", .gstr "5.0")] }

/-- C2 counterexample: a dimensional base key with a **string** value and
no unit sibling does not raise — the conversion succeeds and passes the
value through stringified, so the claim's "for every ToolItem whose
geometry contains a dimensional base key with no unit sibling the
conversion fails" is false as stated. -/
theorem c2_string_dimensional_cex :
    (smooth_to_fctb strDiaTool "endmill").map FctbOut.parameter =
      .ok [("Diameter", PVal.pstr "5.0")] := by
  decide

/-! ### Claim C1: the round trip native → exchange → native -/

/-- Is a parameter value a plain number? -/
def pIsNum : PVal → Bool
  | .pnum _ => true
  | .pstr _ => false
  | .punit _ _ => false

/-- No parameter is a plain number under a dimensional snake-case key
(such a parameter would make the reverse conversion raise). -/
def noBareNumericDims (params : List (String × PVal)) : Prop :=
  ∀ kv ∈ params, kv.1 ≠ "Material" → pIsNum kv.2 = true →
    toSnakeCase kv.1 ∉ dimensionalKeys

instance (params : List (String × PVal)) : Decidable (noBareNumericDims params) := by
  unfold noBareNumericDims
  infer_instance

theorem mem_geomFlat_of_mem (params : List (String × PVal)) (p : String × PVal)
    (hp : p ∈ params) (x : String × GVal) (hx : x ∈ geomBlock p) :
    x ∈ geomFlat params := by
  simp only [geomFlat, List.mem_flatten]
  exact ⟨geomBlock p, List.mem_map.2 ⟨p, hp, rfl⟩, hx⟩

theorem noBareDim_geomFlat (params : List (String × PVal))
    (h3 : noBareNumericDims params) :
    ∀ kv ∈ geomFlat params, ¬isBareDim (geomFlat params) kv := by
  intro kv hkv hbare
  have hkv2 : kv ∈ (params.map geomBlock).flatten := hkv
  obtain ⟨bl, hbl, hkvin⟩ := List.mem_flatten.1 hkv2
  obtain ⟨p, hp, rfl⟩ := List.mem_map.1 hbl
  obtain ⟨pk, pv⟩ := p
  by_cases hm : pk = "Material"
  · simp [geomBlock, hm] at hkvin
  · cases pv with
    | punit d u =>
      simp only [geomBlock, hm, if_false, List.mem_cons, List.mem_singleton,
        List.not_mem_nil, or_false] at hkvin
      rcases hkvin with rfl | rfl
      · have hu : (toSnakeCase pk ++ "_unit", GVal.gstr u) ∈ geomFlat params :=
          mem_geomFlat_of_mem params (pk, .punit d u) hp _ (by simp [geomBlock, hm])
        have hnone := hbare.2.1
        rw [dlookup_none_iff] at hnone
        exact hnone (List.mem_map.2 ⟨_, hu, rfl⟩)
      · have := hbare.1
        rw [endsWithUnit_append] at this
        cases this
    | pnum d =>
      simp only [geomBlock, hm, if_false, List.mem_singleton] at hkvin
      subst hkvin
      exact h3 (pk, .pnum d) hp hm rfl hbare.2.2.2
    | pstr s =>
      simp only [geomBlock, hm, if_false, List.mem_singleton] at hkvin
      subst hkvin
      exact absurd hbare.2.2.1 (by simp [gIsNum])

/-- C1 (amended): for a native ToolBit whose shape file is non-empty,
whose transliterated geometry keys are pairwise distinct, whose plain
numeric parameters do not sit on dimensional keys (such a parameter
makes the reverse conversion raise, see the counterexample), the round
trip `smooth_to_fctb (fctb_to_smooth tool)` succeeds and preserves
version, name, shape, and shape-type; and every unit-decorated
(dimensional) parameter whose key transliterates reversibly reappears
under its original key as its exactly formatted string
`format_parameter_value value unit` (e.g. `"Diameter": "6.00 mm"`). -/
theorem c1_round_trip (tool : Tool)
    (h1 : tool.shape ≠ "")
    (h2 : (dkeys (geomFlat tool.parameters)).Nodup)
    (h3 : noBareNumericDims tool.parameters)
    (h4 : (dkeys (backFlat (geomFlat tool.parameters) (geomFlat tool.parameters))).Nodup) :
    ∃ fctb, smooth_to_fctb (fctb_to_smooth tool) "endmill" = .ok fctb ∧
      fctb.version = tool.version ∧ fctb.name = tool.name ∧
      fctb.shape = tool.shape ∧ fctb.shape_type = tool.shape_type ∧
      ∀ k d u, (k, PVal.punit d u) ∈ tool.parameters → k ≠ "Material" →
        snake_to_camel (toSnakeCase k) = k → endsWithUnit (toSnakeCase k) = false →
        dlookup k fctb.parameter =
          some (.pstr (format_parameter_value (.gnum d) (some (.gstr u)))) := by
  have hgeom : (fctb_to_smooth tool).geometry = geomFlat tool.parameters := by
    have hb : (fctb_to_smooth tool).geometry = buildGeometry tool.parameters := rfl
    rw [hb, buildGeometry_eq tool.parameters h2]
  have hbd := noBareDim_geomFlat tool.parameters h3
  have hok : smoothParams (fctb_to_smooth tool).geometry =
      .ok (backFlat (geomFlat tool.parameters) (geomFlat tool.parameters)) := by
    rw [hgeom]
    exact smoothParams_ok _ h2 h4 hbd
  refine ⟨_, smooth_to_fctb_ok_form (fctb_to_smooth tool) "endmill" _ hok,
    ?_, ?_, ?_, ?_, ?_⟩
  · simp [fctb_to_smooth]
  · simp [fctb_to_smooth]
  · simp [fctb_to_smooth, resolveShapeFile, pyTruthyOptStr, h1]
  · simp [fctb_to_smooth]
  · intro k d u hk hkm hcamel hunit
    dsimp only [fctb_to_smooth]
    have hbase : (toSnakeCase k, GVal.gnum d) ∈ geomFlat tool.parameters :=
      mem_geomFlat_of_mem _ (k, .punit d u) hk _ (by simp [geomBlock, hkm])
    have huent : (toSnakeCase k ++ "_unit", GVal.gstr u) ∈ geomFlat tool.parameters :=
      mem_geomFlat_of_mem _ (k, .punit d u) hk _ (by simp [geomBlock, hkm])
    have hlu : dlookup (toSnakeCase k ++ "_unit") (geomFlat tool.parameters) =
        some (.gstr u) :=
      dlookup_eq_of_mem_nodup h2 huent
    have hblock : backBlock (geomFlat tool.parameters) (toSnakeCase k, GVal.gnum d) =
        [(k, .pstr (format_parameter_value (.gnum d) (some (.gstr u))))] := by
      simp [backBlock, hunit, hlu, hcamel]
    have hentry : (k, PVal.pstr (format_parameter_value (.gnum d) (some (.gstr u)))) ∈
        backFlat (geomFlat tool.parameters) (geomFlat tool.parameters) := by
      apply mem_backFlat_of_mem _ _ hbase
      rw [hblock]
      exact List.mem_singleton.2 rfl
    have hlook := dlookup_eq_of_mem_nodup h4 hentry
    cases hmt : dlookup "Material" tool.parameters with
    | none => exact hlook
    | some mv =>
      by_cases htr : pyTruthyP mv
      · simp only [htr, if_true]
        rw [dlookup_dinsert_ne hkm]
        exact hlook
      · simp only [htr, Bool.false_eq_true, if_false]
        exact hlook

/-- A tool bit whose shape-file field is the empty string. -/
def emptyShapeTool : Tool :=
  { version := 2, id := none, name := "T", shape := "", shape_type := "Endmill",
    parameters := [("Diameter", .punit ⟨6, 0⟩ "mm")], attrs := [], original := {} }

/-- A tool bit with a plain numeric dimensional parameter (no unit). -/
def numDiaTool : Tool :=
  { version := 2, id := none, name := "T", shape := "e.fcstd",
    shape_type := "Endmill", parameters := [("Diameter", .pnum ⟨6, 0⟩)],
    attrs := [], original := {} }

/-- C1 counterexample: the round trip does not preserve every ToolBit as
claimed — an empty shape file comes back as the synthesized default
`"endmill.fcstd"`, and a plain numeric dimensional parameter makes the
reverse conversion raise instead of producing a ToolBit at all. -/
theorem c1_round_trip_cex :
    ((smooth_to_fctb (fctb_to_smooth emptyShapeTool) "endmill").map FctbOut.shape =
        .ok "endmill.fcstd" ∧
      emptyShapeTool.shape = "" ∧ ("endmill.fcstd" : String) ≠ "") ∧
    smooth_to_fctb (fctb_to_smooth numDiaTool) "endmill" =
      .error ("Dimensional parameter \x27diameter\x27 missing required unit field \x27diameter_unit\x27") := by
  decide

/-- The endmill tool bit of the repository's round-trip test. -/
def rtTool : Tool :=
  { version := 2, id := some "endmill-6mm", name := "6mm Endmill",
    shape := "endmill.fcstd", shape_type := "Endmill",
    parameters := [("Diameter", .punit ⟨6, 0⟩ "mm"), ("Flutes", .pnum ⟨4, 0⟩),
      ("Material", .pstr "HSS")],
    attrs := [], original := {} }

/-- C1 witness: the round-trip theorem applied at the endmill tool. -/
theorem c1_round_trip_witness :
    ∃ fctb, smooth_to_fctb (fctb_to_smooth rtTool) "endmill" = .ok fctb ∧
      fctb.version = rtTool.version ∧ fctb.name = rtTool.name ∧
      fctb.shape = rtTool.shape ∧ fctb.shape_type = rtTool.shape_type ∧
      ∀ k d u, (k, PVal.punit d u) ∈ rtTool.parameters → k ≠ "Material" →
        snake_to_camel (toSnakeCase k) = k → endsWithUnit (toSnakeCase k) = false →
        dlookup k fctb.parameter =
          some (.pstr (format_parameter_value (.gnum d) (some (.gstr u)))) :=
  c1_round_trip rtTool (by decide) (by decide) (by decide) (by decide)

end Smooth
